import Mathlib

/-!
# Inkwell backend: article lifecycle and access-control core

Shallow embedding of the Inkwell blogging backend (Django): slug
generation (`blog/models.py`, `Article.generate_unique_slug`), the
scheduled-publication sweep (`blog/views.py`,
`publish_scheduled_articles`), write validation (`Article.clean` and the
serializer field validators), the `IsPublishedOrAuthor` object
permission, and the id-or-slug lookup dispatch of the detail views.

Strings are modelled on their character lists; timestamps as integers;
the database as a list of articles; the slug-uniqueness probe as a
boolean oracle over candidate slugs.
-/

namespace Inkwell

/-! ## Decimal rendering of naturals (Python `str(int)` / f-string) -/

/-- The ASCII character of a decimal digit `d < 10`. -/
def digitChar (d : Nat) : Char := Char.ofNat (48 + d)

/-- Fuel-driven big-endian decimal digit accumulation: renders `n`
in front of `acc`. -/
def natStrAux : Nat → Nat → List Char → List Char
  | 0, _, acc => acc
  | fuel+1, n, acc =>
    if n / 10 = 0 then digitChar (n % 10) :: acc
    else natStrAux fuel (n / 10) (digitChar (n % 10) :: acc)

/-- Decimal string of a natural number, as Python `str` writes it. -/
def natStr (n : Nat) : String := String.mk (natStrAux (n + 1) n [])

/-- Little-endian decimal digit list of `n` (`[]` for `0`); proof-side
companion of `natStrAux`. -/
def natDigitsLE (n : Nat) : List Nat :=
  if h : n = 0 then [] else n % 10 :: natDigitsLE (n / 10)
  termination_by n
  decreasing_by exact Nat.div_lt_self (Nat.pos_of_ne_zero h) (by omega)

/-- Value of a little-endian digit list. -/
def fromLE : List Nat → Nat
  | [] => 0
  | d :: ds => d + 10 * fromLE ds

/-- Proof-side big-endian character rendering of `n`. -/
def digitsBEChars (n : Nat) : List Char :=
  if n = 0 then [digitChar 0] else (natDigitsLE n).reverse.map digitChar

/-! ## `django.utils.text.slugify` (ASCII path)

`slugify` normalizes (NFKD + ASCII-encode with `ignore`, modelled as
dropping non-ASCII code points), lowercases, deletes every character
outside `[\w\s-]`, collapses each run of `[-\s]+` to a single hyphen,
and strips leading/trailing hyphens and underscores. -/

/-- Python regex `\s` over ASCII text. -/
def isPyWs (c : Char) : Bool :=
  c = ' ' || c = '\t' || c = '\n' || c = '\r' || c = '\x0b' || c = '\x0c'

/-- Characters matched by `[-\s]`. -/
def isDashWs (c : Char) : Bool := isPyWs c || c = '-'

/-- Characters kept by `re.sub(r'[^\w\s-]', '', ·)`. -/
def isKeptChar (c : Char) : Bool := c.isAlphanum || c = '_' || isPyWs c || c = '-'

/-- `re.sub(r'[-\s]+', '-', ·)`: each maximal run of hyphens/whitespace
becomes one hyphen. The flag records whether the previous character was
part of such a run. -/
def collapseAux : Bool → List Char → List Char
  | _, [] => []
  | inRun, c :: cs =>
    if isDashWs c then
      if inRun then collapseAux true cs else '-' :: collapseAux true cs
    else c :: collapseAux false cs

/-- Python `str.strip('-_')`. -/
def stripDashUnderscore (l : List Char) : List Char :=
  (((l.dropWhile fun c => c = '-' || c = '_').reverse.dropWhile
      fun c => c = '-' || c = '_')).reverse

def slugify (s : String) : String :=
  String.mk (stripDashUnderscore (collapseAux false
    (((s.data.filter fun c => c.toNat < 128).map Char.toLower).filter isKeptChar)))

/-! ## `Article.generate_unique_slug` (`blog/models.py`)

The uniqueness probe
`Article.objects.filter(slug=u).exclude(pk=self.pk).exists()` is a
boolean oracle `taken`; `ts` is `int(time.time())` at the moment the
fallback fires. The `while` loop is driven by fuel; fuel `1000` with
initial counter `1` is never exhausted because the counter check breaks
the loop first. -/

/-- Base slug: `slugify(title)`, `'article'` if empty, truncated to 200. -/
def slugBase (title : String) : String :=
  String.mk ((if slugify title = "" then "article" else slugify title).data.take 200)

/-- The `k`-th candidate probed by the collision loop:
the base itself, then `base-1`, `base-2`, …. -/
def slugCandidate (base : String) : Nat → String
  | 0 => base
  | k + 1 => base ++ "-" ++ natStr (k + 1)

def slugLoop (taken : String → Bool) (base : String) (ts : Nat) :
    Nat → String → Nat → String
  | 0, cur, _ => cur
  | fuel + 1, cur, counter =>
    if taken cur then
      if counter + 1 > 1000 then base ++ "-" ++ natStr ts
      else slugLoop taken base ts fuel (base ++ "-" ++ natStr counter) (counter + 1)
    else cur

/-- Number of `while`-body executions performed by the collision loop. -/
def slugLoopSteps (taken : String → Bool) (base : String) :
    Nat → String → Nat → Nat
  | 0, _, _ => 0
  | fuel + 1, cur, counter =>
    if taken cur then
      if counter + 1 > 1000 then 1
      else 1 + slugLoopSteps taken base fuel (base ++ "-" ++ natStr counter) (counter + 1)
    else 0

/-- `Article.generate_unique_slug`: an empty (falsy) title returns
`'article'` at once; otherwise the base is probed against the oracle,
appending `-1`, `-2`, … and falling back to `{base}-{ts}` after the
counter passes 1000. -/
def generate_unique_slug (title : String) (taken : String → Bool) (ts : Nat) : String :=
  if title = "" then "article"
  else slugLoop taken (slugBase title) ts 1000 (slugBase title) 1

/-- Collision-loop iteration count of a `generate_unique_slug` call. -/
def generateSteps (title : String) (taken : String → Bool) : Nat :=
  if title = "" then 0
  else slugLoopSteps taken (slugBase title) 1000 (slugBase title) 1

/-- The probe `Article.objects.filter(slug=s).exclude(pk=self.pk)` over
a store of `(pk, slug)` rows; `selfPk = none` models an unsaved article
(`exclude(pk=None)` excludes no persisted row). -/
def takenFor (store : List (Nat × String)) (selfPk : Option Nat) (s : String) : Bool :=
  store.any fun e => e.2 == s && some e.1 != selfPk

/-! ## The Article entity (`blog/models.py`) -/

inductive Status where
  | draft
  | published
deriving DecidableEq, Repr

structure Article where
  id : Nat
  title : String
  content : String
  slug : String
  status : Status
  author : Nat
  publish_date : Option Int
  created_at : Int
  updated_at : Int
deriving DecidableEq, Repr

/-! ## Scheduled-publication sweep (`blog/views.py`,
`publish_scheduled_articles`)

The queryset filter `status='draft', publish_date__isnull=False,
publish_date__lte=now` selects the due drafts; each is set to
`published` and saved; `updated_at` carries `auto_now=True`, so every
save refreshes it. -/

def isDue (now : Int) (a : Article) : Bool :=
  a.status == .draft &&
    (match a.publish_date with | some d => decide (d ≤ now) | none => false)

def sweepF (now : Int) (a : Article) : Article :=
  if isDue now a then { a with status := .published, updated_at := now } else a

def publish_scheduled_articles (now : Int) (store : List Article) : List Article :=
  store.map (sweepF now)

/-- The sweep with a fallible per-row persist. `article.save()` sits in
the `for` body with no exception handling: a raising save leaves the
current row unpersisted and terminates the scan, so later rows are left
as they were. The boolean reports whether the scan ran to completion. -/
def sweepScan (persistOk : Article → Bool) (now : Int) :
    List Article → List Article × Bool
  | [] => ([], true)
  | a :: rest =>
    if isDue now a then
      if persistOk { a with status := Status.published, updated_at := now } then
        let r := sweepScan persistOk now rest
        ({ a with status := Status.published, updated_at := now } :: r.1, r.2)
      else (a :: rest, false)
    else
      let r := sweepScan persistOk now rest
      (a :: r.1, r.2)

/-! ## Validation (`Article.clean` and the serializer field validators) -/

def placeholder_titles : List String := ["untitled", "new post", "title", "article"]

/-- Python `str.lower()` (ASCII). -/
def pyLowerStr (s : String) : String := String.mk (s.data.map Char.toLower)

/-- Python `str.strip()`: whitespace removed from both ends. -/
def pyStrip (s : String) : String :=
  String.mk (((s.data.dropWhile isPyWs).reverse.dropWhile isPyWs).reverse)

/-- `self.title and self.title.lower().strip() in placeholder_titles`. -/
def titleIsPlaceholder (t : String) : Bool :=
  t ≠ "" && placeholder_titles.contains (pyStrip (pyLowerStr t))

/-- `Article.clean` (`blog/models.py`): placeholder titles are refused,
and a draft with a set `publish_date <= now` is refused; the error names
the offending field. -/
def clean (a : Article) (now : Int) : Except String Unit :=
  if titleIsPlaceholder a.title then .error "title"
  else
    match a.publish_date with
    | some d =>
      if a.status == .draft && decide (d ≤ now) then .error "publish_date" else .ok ()
    | none => .ok ()

/-- `validate_title` of `ArticleCreateSerializer`/`ArticleUpdateSerializer`:
same placeholder test as `clean`. -/
def validate_title (value : String) : Bool := !(titleIsPlaceholder value)

/-- `validate_publish_date` of both article serializers: any provided
value `<= now` is refused, with no reference to the article's status. -/
def validate_publish_date (value : Option Int) (now : Int) : Bool :=
  match value with
  | some d => !(decide (d ≤ now))
  | none => true

/-- An update payload over a subset of fields: `none` means the field is absent from
the request body, so its field validator does not run. -/
structure UpdatePayload where
  title : Option String := none
  content : Option String := none
  status : Option Status := none
  publish_date : Option (Option Int) := none

/-- `serializer.is_valid()` on an update: run each declared field
validator on the fields present in the payload. -/
def updateFieldsValid (p : UpdatePayload) (now : Int) : Bool :=
  (match p.title with | some t => validate_title t | none => true) &&
  (match p.publish_date with | some v => validate_publish_date v now | none => true)

/-- `ArticleUpdateSerializer.update`: a changed title clears the slug
(to be regenerated), then every provided field is assigned. -/
def applyUpdate (a : Article) (p : UpdatePayload) : Article :=
  let a1 := match p.title with
    | some t => if t ≠ a.title then { a with title := t, slug := "" } else a
    | none => a
  let a2 := match p.content with | some c => { a1 with content := c } | none => a1
  let a3 := match p.status with | some s => { a2 with status := s } | none => a2
  match p.publish_date with | some v => { a3 with publish_date := v } | none => a3

/-- First half of `Article.save`: `if not self.slug: self.slug = self.generate_unique_slug()`. -/
def withSlug (a : Article) (taken : String → Bool) (ts : Nat) : Article :=
  if a.slug = "" then { a with slug := generate_unique_slug a.title taken ts } else a

/-- `Article.save`: regenerate an absent slug, run `full_clean`
(aborting the write), persist with `updated_at` refreshed. -/
def save (a : Article) (taken : String → Bool) (ts : Nat) (now : Int) :
    Except String Article :=
  match clean (withSlug a taken ts) now with
  | .error f => .error f
  | .ok _ => .ok { withSlug a taken ts with updated_at := now }

/-- The write path of `UserArticleDetailView.put`/`.patch`: serializer
field validation, then `ArticleUpdateSerializer.update`, then
`Article.save`. -/
def updateArticle (a : Article) (p : UpdatePayload) (taken : String → Bool)
    (ts : Nat) (now : Int) : Except String Article :=
  if updateFieldsValid p now then save (applyUpdate a p) taken ts now
  else .error "serializer"

/-! ## `IsPublishedOrAuthor.has_object_permission`
(`blog/permissions.py`)

The caller is `none` when anonymous (`request.user.is_authenticated`
false), `some u` for the authenticated user `u`; `isSafe` is
`request.method in SAFE_METHODS` (a read). -/

def has_object_permission (user : Option Nat) (isSafe : Bool) (a : Article) : Bool :=
  if isSafe && a.status == .published then true
  else if (match user with | some u => a.author == u | none => false) then true
  else false

/-! ## Id-or-slug lookup dispatch (`blog/views.py`) -/

/-- Python `str.isdigit` on ASCII tokens: nonempty and all digits. -/
def isDigitToken (s : String) : Bool := !s.isEmpty && s.data.all Char.isDigit

/-- Decimal parse of an all-digit token (Django's pk coercion). -/
def parseNat (s : String) : Nat := s.data.foldl (fun n c => n * 10 + (c.toNat - 48)) 0

/-- `PublicArticleDetailView.get`: a digit token is looked up as pk,
anything else as slug; both restricted to published articles. -/
def lookupPublished (store : List Article) (token : String) : Option Article :=
  if isDigitToken token then
    store.find? fun a => a.id == parseNat token && a.status == .published
  else
    store.find? fun a => a.slug == token && a.status == .published

/-- The queryset step of `UserArticleDetailView.get_article`: digit
dispatch restricted to the target user's articles. -/
def get_article_row (store : List Article) (targetUser : Nat)
    (token : String) : Option Article :=
  if isDigitToken token then
    store.find? fun a => a.id == parseNat token && a.author == targetUser
  else
    store.find? fun a => a.slug == token && a.author == targetUser

/-- `UserArticleDetailView.get_article`: the row lookup followed by the
ownership/published visibility check. -/
def get_article (store : List Article) (targetUser : Nat) (token : String)
    (requestUser : Nat) : Option Article :=
  match get_article_row store targetUser token with
  | none => none
  | some a =>
    if requestUser == targetUser then some a
    else if a.status == .published then some a
    else none

/-- Repeated creation: each article is created without a slug, the
generated slug is persisted into the store seen by the next creation
(the probe of a fresh article excludes no row). -/
def createRun (title : String) (ts : Nat) : Nat → List String → List String
  | 0, _ => []
  | n + 1, store =>
    generate_unique_slug title (fun x => store.contains x) ts ::
      createRun title ts n
        (generate_unique_slug title (fun x => store.contains x) ts :: store)

/-! ## Concrete articles used in witnesses and counterexamples -/

def exDueDraft : Article :=
  Article.mk 1 "First Post" "Body text" "first-post" Status.draft 1 (some 5) 0 0

def exDueDraft2 : Article :=
  Article.mk 5 "Fifth Post" "Body text" "fifth-post" Status.draft 2 (some 6) 0 0

def exFutureDraft : Article :=
  Article.mk 2 "Second Post" "Body text" "second-post" Status.draft 1 (some 99) 0 0

def exNoDateDraft : Article :=
  Article.mk 3 "Third Post" "Body text" "third-post" Status.draft 1 none 0 0

def exPub : Article :=
  Article.mk 4 "Hello World" "Body text" "hello-world" Status.published 1 (some 50) 0 0

def exDigitSlug : Article :=
  Article.mk 7 "Digits" "Body text" "42" Status.published 1 none 0 0

/-- A 200-character title containing an underscore. -/
def longTitle : String := String.mk ('a' :: '_' :: List.replicate 198 'a')

/-! ## Slug character-set and length lemmas -/

/-- The characters actually producible in a slug: lowercase ASCII
letters, digits, hyphens — and underscores, which `\w` admits. -/
def isSlugChar (c : Char) : Bool := c.isLower || c.isDigit || c = '-' || c = '_'

/-! ## Lemmas and claim theorems -/

theorem fromLE_natDigitsLE (n : Nat) : fromLE (natDigitsLE n) = n := by
  induction n using Nat.strong_induction_on with
  | _ n ih =>
    by_cases h : n = 0
    · subst h; simp [natDigitsLE, fromLE]
    · rw [natDigitsLE]
      simp only [h, dite_false, fromLE]
      rw [ih (n / 10) (Nat.div_lt_self (Nat.pos_of_ne_zero h) (by omega))]
      omega

theorem natDigitsLE_lt10 (n : Nat) : ∀ d ∈ natDigitsLE n, d < 10 := by
  induction n using Nat.strong_induction_on with
  | _ n ih =>
    by_cases h : n = 0
    · subst h; simp [natDigitsLE]
    · rw [natDigitsLE]
      simp only [h, dite_false, List.mem_cons]
      rintro d (rfl | hd)
      · omega
      · exact ih (n / 10) (Nat.div_lt_self (Nat.pos_of_ne_zero h) (by omega)) d hd

theorem natDigitsLE_injective {m n : Nat} (h : natDigitsLE m = natDigitsLE n) :
    m = n := by
  have := fromLE_natDigitsLE m
  rw [h, fromLE_natDigitsLE] at this
  omega

theorem digitChar_inj_lt10 : ∀ d < 10, ∀ e < 10, digitChar d = digitChar e → d = e := by
  decide

theorem map_digitChar_inj {xs ys : List Nat}
    (hx : ∀ d ∈ xs, d < 10) (hy : ∀ d ∈ ys, d < 10)
    (h : xs.map digitChar = ys.map digitChar) : xs = ys := by
  induction xs generalizing ys with
  | nil => cases ys <;> simp_all
  | cons a as ih =>
    cases ys with
    | nil => simp_all
    | cons b bs =>
      simp only [List.map_cons, List.cons.injEq] at h
      have ha : a = b := digitChar_inj_lt10 a (hx a (by simp)) b (hy b (by simp)) h.1
      have : as = bs := ih (fun d hd => hx d (by simp [hd])) (fun d hd => hy d (by simp [hd])) h.2
      simp [ha, this]

theorem digitsBEChars_small {n : Nat} (hn : n < 10) :
    digitsBEChars n = [digitChar n] := by
  rw [digitsBEChars]
  by_cases h : n = 0
  · simp [h]
  · simp only [h, if_false]
    rw [natDigitsLE]
    simp only [h, dite_false]
    rw [natDigitsLE]
    have hq : n / 10 = 0 := Nat.div_eq_of_lt hn
    simp [hq, Nat.mod_eq_of_lt hn]

theorem digitsBEChars_step {n : Nat} (hn : ¬ n / 10 = 0) :
    digitsBEChars n = digitsBEChars (n / 10) ++ [digitChar (n % 10)] := by
  have hne : n ≠ 0 := by
    intro h; subst h; simp at hn
  rw [digitsBEChars, digitsBEChars]
  simp only [hne, if_false, hn, if_false]
  rw [natDigitsLE]
  simp only [hne, dite_false]
  simp

theorem natStrAux_bridge : ∀ (fuel n : Nat) (acc : List Char),
    n < 10 ^ (fuel + 1) → natStrAux (fuel + 1) n acc = digitsBEChars n ++ acc := by
  intro fuel
  induction fuel with
  | zero =>
    intro n acc hn
    have hn10 : n < 10 := by simpa using hn
    have hq : n / 10 = 0 := Nat.div_eq_of_lt hn10
    rw [natStrAux]
    simp [hq, digitsBEChars_small hn10, Nat.mod_eq_of_lt hn10]
  | succ f ih =>
    intro n acc hn
    rw [natStrAux]
    by_cases hq : n / 10 = 0
    · have hlt : n < 10 := by omega
      simp [hq, digitsBEChars_small hlt, Nat.mod_eq_of_lt hlt]
    · simp only [hq, if_false]
      have hdiv : n / 10 < 10 ^ (f + 1) := by
        rw [Nat.div_lt_iff_lt_mul (by omega)]
        calc n < 10 ^ (f + 1 + 1) := hn
        _ = 10 ^ (f + 1) * 10 := by ring
      rw [ih (n / 10) _ hdiv, digitsBEChars_step hq]
      simp

theorem natStr_eq_digitsBE (n : Nat) : natStr n = String.mk (digitsBEChars n) := by
  have hn : n < 10 ^ (n + 1) := by
    calc n < 2 ^ n := Nat.lt_two_pow n
    _ ≤ 10 ^ n := Nat.pow_le_pow_left (by omega) n
    _ ≤ 10 ^ (n + 1) := Nat.pow_le_pow_right (by omega) (by omega)
  rw [natStr, natStrAux_bridge n n [] hn, List.append_nil]

theorem digitsBEChars_ne_nil (n : Nat) : digitsBEChars n ≠ [] := by
  rw [digitsBEChars]
  by_cases h : n = 0
  · simp [h]
  · simp only [h, if_false]
    rw [natDigitsLE]
    simp [h]

theorem digitsBEChars_injective {m n : Nat} (h : digitsBEChars m = digitsBEChars n) :
    m = n := by
  rw [digitsBEChars, digitsBEChars] at h
  by_cases hm : m = 0 <;> by_cases hn : n = 0
  · omega
  · exfalso
    simp only [hm, if_true, hn, if_false] at h
    have hd : natDigitsLE n = [0] := by
      have h0 := @map_digitChar_inj [0] (natDigitsLE n).reverse
        (by simp) (by simpa using fun d hd => natDigitsLE_lt10 n d hd) (by simpa using h)
      have h2 : (natDigitsLE n).reverse = [0] := h0.symm
      calc natDigitsLE n = (natDigitsLE n).reverse.reverse := by simp
      _ = [0] := by rw [h2]; simp
    have hv := fromLE_natDigitsLE n
    rw [hd] at hv
    simp [fromLE] at hv
    exact hn hv.symm
  · exfalso
    simp only [hm, if_false, hn, if_true] at h
    have hd : natDigitsLE m = [0] := by
      have h0 := @map_digitChar_inj (natDigitsLE m).reverse [0]
        (by simpa using fun d hd => natDigitsLE_lt10 m d hd) (by simp) (by simpa using h)
      calc natDigitsLE m = (natDigitsLE m).reverse.reverse := by simp
      _ = [0] := by rw [h0]; simp
    have hv := fromLE_natDigitsLE m
    rw [hd] at hv
    simp [fromLE] at hv
    exact hm hv.symm
  · simp only [hm, if_false, hn, if_false] at h
    have := map_digitChar_inj
      (by simpa using fun d hd => natDigitsLE_lt10 m d hd)
      (by simpa using fun d hd => natDigitsLE_lt10 n d hd) h
    exact natDigitsLE_injective (List.reverse_injective this)

theorem natStr_injective {m n : Nat} (h : natStr m = natStr n) : m = n := by
  rw [natStr_eq_digitsBE, natStr_eq_digitsBE] at h
  exact digitsBEChars_injective (congrArg String.data h)

theorem natStr_ne_empty (n : Nat) : natStr n ≠ "" := by
  rw [natStr_eq_digitsBE]
  intro h
  exact digitsBEChars_ne_nil n (congrArg String.data h)

/-! ## Character classes -/

theorem toNat_ofNat_valid {n : Nat} (h : n.isValidChar) : (Char.ofNat n).toNat = n := by
  simp [Char.ofNat, dif_pos h, Char.ofNatAux, Char.toNat]
  rfl

theorem isUpper_iff (c : Char) : c.isUpper = true ↔ 65 ≤ c.toNat ∧ c.toNat ≤ 90 := by
  simp [Char.isUpper, UInt32.le_def, BitVec.le_def, Char.toNat, UInt32.toNat]

theorem isLower_iff (c : Char) : c.isLower = true ↔ 97 ≤ c.toNat ∧ c.toNat ≤ 122 := by
  simp [Char.isLower, UInt32.le_def, BitVec.le_def, Char.toNat, UInt32.toNat]

theorem isDigit_iff (c : Char) : c.isDigit = true ↔ 48 ≤ c.toNat ∧ c.toNat ≤ 57 := by
  simp [Char.isDigit, UInt32.le_def, BitVec.le_def, Char.toNat, UInt32.toNat]

theorem isUpper_toLower (c : Char) : (Char.toLower c).isUpper = false := by
  rw [Char.toLower]
  by_cases h : c.toNat ≥ 65 ∧ c.toNat ≤ 90
  · have hv : (c.toNat + 32).isValidChar := by
      constructor
      omega
    rw [if_pos h]
    by_contra hu
    simp only [Bool.not_eq_false] at hu
    rw [isUpper_iff] at hu
    rw [toNat_ofNat_valid hv] at hu
    omega
  · rw [if_neg h]
    by_contra hu
    simp only [Bool.not_eq_false] at hu
    rw [isUpper_iff] at hu
    exact h ⟨hu.1, hu.2⟩

/-! ## Collision-loop lemmas -/

theorem slugCandidate_pos (base : String) {k : Nat} (hk : 1 ≤ k) :
    slugCandidate base k = base ++ "-" ++ natStr k := by
  cases k with
  | zero => omega
  | succ m => rfl

theorem natStr_length_pos (n : Nat) : 1 ≤ (natStr n).length := by
  rw [natStr_eq_digitsBE, String.length_mk]
  cases hh : digitsBEChars n with
  | nil => exact absurd hh (digitsBEChars_ne_nil n)
  | cons x xs => simp

theorem slugCandidate_injective (base : String) {j k : Nat}
    (h : slugCandidate base j = slugCandidate base k) : j = k := by
  have hlen : ∀ m, 1 ≤ m →
      (slugCandidate base m).length = base.length + 1 + (natStr m).length := by
    intro m hm
    rw [slugCandidate_pos base hm]
    simp [String.length_append]
    rfl
  match j, k with
  | 0, 0 => rfl
  | 0, k + 1 =>
    exfalso
    have h2 := hlen (k + 1) (by omega)
    rw [← h] at h2
    have hb : slugCandidate base 0 = base := rfl
    rw [hb] at h2
    have h3 := natStr_length_pos (k + 1)
    omega
  | j + 1, 0 =>
    exfalso
    have h2 := hlen (j + 1) (by omega)
    rw [h] at h2
    have hb : slugCandidate base 0 = base := rfl
    rw [hb] at h2
    have h3 := natStr_length_pos (j + 1)
    omega
  | j + 1, k + 1 =>
    have hd := congrArg String.data h
    simp only [slugCandidate, String.data_append] at hd
    have h1 := List.append_cancel_left hd
    have h2 : natStr (j + 1) = natStr (k + 1) := String.ext h1
    rw [natStr_injective h2]

theorem slugLoop_free (taken : String → Bool) (base : String) (ts : Nat) :
    ∀ fuel counter, fuel + counter = 1001 → 1 ≤ counter →
      (∃ k, counter - 1 ≤ k ∧ k ≤ 999 ∧ taken (slugCandidate base k) = false) →
      taken (slugLoop taken base ts fuel (slugCandidate base (counter - 1)) counter)
        = false := by
  intro fuel
  induction fuel with
  | zero =>
    intro counter hfc _ hex
    obtain ⟨k, hk1, hk2, _⟩ := hex
    omega
  | succ f ih =>
    intro counter hfc hc hex
    obtain ⟨k, hk1, hk2, hkfree⟩ := hex
    rw [slugLoop]
    by_cases ht : taken (slugCandidate base (counter - 1)) = true
    · rw [if_pos ht]
      have hkc : counter ≤ k := by
        rcases Nat.lt_or_ge (k) counter with h | h
        · have : k = counter - 1 := by omega
          rw [this] at hkfree
          rw [hkfree] at ht
          exact absurd ht (by simp)
        · exact h
      have hcle : ¬ counter + 1 > 1000 := by omega
      rw [if_neg hcle]
      have hcand : base ++ "-" ++ natStr counter = slugCandidate base counter :=
        (slugCandidate_pos base hc).symm
      rw [hcand]
      have : counter = (counter + 1) - 1 := by omega
      rw [this]
      exact ih (counter + 1) (by omega) (by omega) ⟨k, by omega, hk2, hkfree⟩
    · rw [if_neg ht]
      simpa using ht

theorem slugLoop_least (taken : String → Bool) (base : String) (ts : Nat) :
    ∀ fuel counter m, fuel + counter = 1001 → 1 ≤ counter →
      counter - 1 ≤ m → m ≤ 999 → taken (slugCandidate base m) = false →
      (∀ j, counter - 1 ≤ j → j < m → taken (slugCandidate base j) = true) →
      slugLoop taken base ts fuel (slugCandidate base (counter - 1)) counter =
        slugCandidate base m := by
  intro fuel
  induction fuel with
  | zero =>
    intro counter m hfc _ hm1 hm2 _ _
    omega
  | succ f ih =>
    intro counter m hfc hc hm1 hm2 hmfree hblocked
    rw [slugLoop]
    by_cases hm : m = counter - 1
    · subst hm
      rw [if_neg (by simp [hmfree])]
    · have hlt : counter - 1 < m := by omega
      have ht : taken (slugCandidate base (counter - 1)) = true :=
        hblocked (counter - 1) (le_refl _) hlt
      rw [if_pos ht]
      have hcle : ¬ counter + 1 > 1000 := by omega
      rw [if_neg hcle]
      have hcand : base ++ "-" ++ natStr counter = slugCandidate base counter :=
        (slugCandidate_pos base hc).symm
      rw [hcand]
      have hc1 : counter = (counter + 1) - 1 := by omega
      rw [hc1]
      exact ih (counter + 1) m (by omega) (by omega) (by omega) hm2 hmfree
        (fun j hj1 hj2 => hblocked j (by omega) hj2)

theorem slugLoop_shape (taken : String → Bool) (base : String) (ts : Nat) :
    ∀ fuel counter, fuel + counter = 1001 → 1 ≤ counter → counter ≤ 1000 →
      (∃ k, counter - 1 ≤ k ∧ k ≤ 999 ∧
        slugLoop taken base ts fuel (slugCandidate base (counter - 1)) counter =
          slugCandidate base k) ∨
      slugLoop taken base ts fuel (slugCandidate base (counter - 1)) counter =
        base ++ "-" ++ natStr ts := by
  intro fuel
  induction fuel with
  | zero =>
    intro counter hfc _ hcu
    omega
  | succ f ih =>
    intro counter hfc hc hcu
    rw [slugLoop]
    by_cases ht : taken (slugCandidate base (counter - 1)) = true
    · rw [if_pos ht]
      by_cases hcl : counter + 1 > 1000
      · rw [if_pos hcl]
        exact Or.inr rfl
      · rw [if_neg hcl]
        have hcand : base ++ "-" ++ natStr counter = slugCandidate base counter :=
          (slugCandidate_pos base hc).symm
        rw [hcand]
        have hc1 : counter = (counter + 1) - 1 := by omega
        rw [hc1]
        rcases ih (counter + 1) (by omega) (by omega) (by omega) with ⟨k, h1, h2, h3⟩ | h
        · exact Or.inl ⟨k, by omega, h2, h3⟩
        · exact Or.inr h
    · rw [if_neg ht]
      exact Or.inl ⟨counter - 1, le_refl _, by omega, rfl⟩

theorem slugLoop_allTaken (base : String) (ts : Nat) :
    ∀ fuel counter (cur : String), fuel + counter = 1001 → 1 ≤ counter →
      counter ≤ 1000 →
      slugLoop (fun _ => true) base ts fuel cur counter = base ++ "-" ++ natStr ts := by
  intro fuel
  induction fuel with
  | zero =>
    intro counter _ hfc _ hcu
    omega
  | succ f ih =>
    intro counter cur hfc hc hcu
    rw [slugLoop]
    simp only [if_true]
    by_cases hcl : counter + 1 > 1000
    · rw [if_pos hcl]
    · rw [if_neg hcl]
      exact ih (counter + 1) _ (by omega) (by omega) (by omega)

theorem mem_collapseAux {c : Char} :
    ∀ (b : Bool) (l : List Char), c ∈ collapseAux b l →
      c = '-' ∨ (c ∈ l ∧ isDashWs c = false) := by
  intro b l
  induction l generalizing b with
  | nil => intro h; simp [collapseAux] at h
  | cons a as ih =>
    intro h
    rw [collapseAux] at h
    by_cases hd : isDashWs a = true
    · rw [if_pos hd] at h
      by_cases hb : b = true
      · rw [if_pos hb] at h
        rcases ih true h with h1 | ⟨h2, h3⟩
        · exact Or.inl h1
        · exact Or.inr ⟨List.mem_cons_of_mem a h2, h3⟩
      · rw [if_neg hb] at h
        rcases List.mem_cons.mp h with h1 | h1
        · exact Or.inl h1
        · rcases ih true h1 with h2 | ⟨h2, h3⟩
          · exact Or.inl h2
          · exact Or.inr ⟨List.mem_cons_of_mem a h2, h3⟩
    · rw [if_neg hd] at h
      rcases List.mem_cons.mp h with h1 | h1
      · subst h1
        exact Or.inr ⟨List.mem_cons_self c as, by simpa using hd⟩
      · rcases ih false h1 with h2 | ⟨h2, h3⟩
        · exact Or.inl h2
        · exact Or.inr ⟨List.mem_cons_of_mem a h2, h3⟩

theorem mem_stripDashUnderscore {l : List Char} {c : Char}
    (h : c ∈ stripDashUnderscore l) : c ∈ l := by
  rw [stripDashUnderscore] at h
  rw [List.mem_reverse] at h
  have h1 := List.dropWhile_subset _ h
  rw [List.mem_reverse] at h1
  exact List.dropWhile_subset _ h1

theorem slugify_chars (s : String) : ∀ c ∈ (slugify s).data, isSlugChar c = true := by
  intro c hc
  have hc' : c ∈ stripDashUnderscore (collapseAux false
      (((s.data.filter fun c => c.toNat < 128).map Char.toLower).filter isKeptChar)) := hc
  have h1 := mem_stripDashUnderscore hc'
  rcases mem_collapseAux false _ h1 with h2 | ⟨h2, h3⟩
  · simp [isSlugChar, h2]
  · rw [List.mem_filter] at h2
    obtain ⟨hmem, hkept⟩ := h2
    rw [List.mem_map] at hmem
    obtain ⟨d, _, hd⟩ := hmem
    have hup : c.isUpper = false := hd ▸ isUpper_toLower d
    rw [isKeptChar] at hkept
    rw [isDashWs] at h3
    simp only [Bool.or_eq_true] at hkept
    simp only [Bool.or_eq_false_iff] at h3
    rcases hkept with ((han | hun) | hws) | hdash
    · rw [Char.isAlphanum, Bool.or_eq_true, Char.isAlpha, Bool.or_eq_true] at han
      rcases han with (hu | hl) | hdg
      · rw [hup] at hu; exact absurd hu (by simp)
      · simp [isSlugChar, hl]
      · simp [isSlugChar, hdg]
    · simp only [decide_eq_true_eq] at hun
      simp [isSlugChar, hun]
    · rw [h3.1] at hws; exact absurd hws (by simp)
    · simp only [decide_eq_true_eq] at hdash
      simp [isSlugChar, hdash]

theorem article_chars : ∀ c ∈ ("article" : String).data, isSlugChar c = true := by
  decide

theorem slugBase_chars (title : String) :
    ∀ c ∈ (slugBase title).data, isSlugChar c = true := by
  intro c hc
  have hc' : c ∈ ((if slugify title = "" then "article" else slugify title).data.take 200) := hc
  have h1 := List.take_subset 200 _ hc'
  by_cases he : slugify title = ""
  · rw [if_pos he] at h1
    exact article_chars c h1
  · rw [if_neg he] at h1
    exact slugify_chars title c h1

theorem slugBase_length (title : String) : (slugBase title).length ≤ 200 := by
  rw [slugBase, String.length_mk]
  exact (List.length_take_le 200 _).trans (by omega)

theorem slugBase_ne_empty (title : String) : slugBase title ≠ "" := by
  intro h
  have hd : ((if slugify title = "" then "article" else slugify title).data.take 200) = [] :=
    congrArg String.data h
  rw [List.take_eq_nil_iff] at hd
  rcases hd with hd | hd
  · exact absurd hd (by omega)
  · by_cases he : slugify title = ""
    · rw [if_pos he] at hd
      exact absurd hd (by decide)
    · rw [if_neg he] at hd
      exact he (String.ext hd)

theorem digitChar_isDigit : ∀ d < 10, (digitChar d).isDigit = true := by
  decide

theorem natStr_chars (n : Nat) : ∀ c ∈ (natStr n).data, c.isDigit = true := by
  rw [natStr_eq_digitsBE]
  intro c hc
  have hc' : c ∈ digitsBEChars n := hc
  rw [digitsBEChars] at hc'
  by_cases h : n = 0
  · rw [if_pos h] at hc'
    rw [List.mem_singleton] at hc'
    subst hc'
    exact digitChar_isDigit 0 (by omega)
  · rw [if_neg h] at hc'
    rw [List.mem_map] at hc'
    obtain ⟨d, hd, hdc⟩ := hc'
    rw [List.mem_reverse] at hd
    exact hdc ▸ digitChar_isDigit d (natDigitsLE_lt10 n d hd)

theorem natDigitsLE_length_le {n m : Nat} (h : n < 10 ^ m) :
    (natDigitsLE n).length ≤ m := by
  induction m generalizing n with
  | zero =>
    have : n = 0 := by simpa using h
    subst this
    simp [natDigitsLE]
  | succ k ih =>
    by_cases hz : n = 0
    · subst hz; simp [natDigitsLE]
    · rw [natDigitsLE]
      simp only [hz, dite_false, List.length_cons]
      have : n / 10 < 10 ^ k := by
        rw [Nat.div_lt_iff_lt_mul (by omega)]
        calc n < 10 ^ (k + 1) := h
        _ = 10 ^ k * 10 := by ring
      have := ih this
      omega

theorem natStr_length_le {n m : Nat} (h : n < 10 ^ m) (hm : 1 ≤ m) :
    (natStr n).length ≤ m := by
  rw [natStr_eq_digitsBE, String.length_mk, digitsBEChars]
  by_cases hz : n = 0
  · simpa [hz] using hm
  · simp only [hz, if_false, List.length_map, List.length_reverse]
    exact natDigitsLE_length_le h

theorem slugLoopSteps_le (taken : String → Bool) (base : String) :
    ∀ fuel (cur : String) counter, slugLoopSteps taken base fuel cur counter ≤ fuel := by
  intro fuel
  induction fuel with
  | zero => intro cur counter; rw [slugLoopSteps]
  | succ f ih =>
    intro cur counter
    rw [slugLoopSteps]
    by_cases ht : taken cur = true
    · rw [if_pos ht]
      by_cases hcl : counter + 1 > 1000
      · rw [if_pos hcl]; omega
      · rw [if_neg hcl]
        have := ih (base ++ "-" ++ natStr counter) (counter + 1)
        omega
    · rw [if_neg ht]; omega

/-! ## Properties of `generate_unique_slug` -/

theorem ne_empty_of_length_pos {s : String} (h : 1 ≤ s.length) : s ≠ "" := by
  intro he
  subst he
  exact absurd h (by decide)

theorem generate_free (title : String) (taken : String → Bool) (ts : Nat)
    (ht : title ≠ "")
    (hfree : ∃ k, k ≤ 999 ∧ taken (slugCandidate (slugBase title) k) = false) :
    taken (generate_unique_slug title taken ts) = false := by
  rw [generate_unique_slug, if_neg ht]
  obtain ⟨k, hk, hkf⟩ := hfree
  exact slugLoop_free taken (slugBase title) ts 1000 1 (by omega) (by omega)
    ⟨k, by omega, hk, hkf⟩

theorem generate_shape (title : String) (taken : String → Bool) (ts : Nat)
    (ht : title ≠ "") :
    (∃ k, k ≤ 999 ∧ generate_unique_slug title taken ts =
        slugCandidate (slugBase title) k) ∨
    generate_unique_slug title taken ts = slugBase title ++ "-" ++ natStr ts := by
  rw [generate_unique_slug, if_neg ht]
  rcases slugLoop_shape taken (slugBase title) ts 1000 1 (by omega) (by omega)
      (by omega) with ⟨k, _, h2, h3⟩ | h
  · exact Or.inl ⟨k, h2, h3⟩
  · exact Or.inr h

theorem dash_data : ("-" : String).data = ['-'] := rfl

theorem append_natStr_chars (base : String) (n : Nat)
    (hb : ∀ c ∈ base.data, isSlugChar c = true) :
    ∀ c ∈ (base ++ "-" ++ natStr n).data, isSlugChar c = true := by
  intro c hc
  rw [String.data_append, String.data_append] at hc
  rcases List.mem_append.mp hc with hc1 | hc2
  · rcases List.mem_append.mp hc1 with hb1 | hdash
    · exact hb c hb1
    · rw [dash_data, List.mem_singleton] at hdash
      simp [isSlugChar, hdash]
  · have := natStr_chars n c hc2
    simp [isSlugChar, this]

theorem generate_chars (title : String) (taken : String → Bool) (ts : Nat) :
    ∀ c ∈ (generate_unique_slug title taken ts).data, isSlugChar c = true := by
  by_cases ht : title = ""
  · rw [generate_unique_slug, if_pos ht]
    exact article_chars
  · rcases generate_shape title taken ts ht with ⟨k, _, heq⟩ | heq
    · rw [heq]
      cases k with
      | zero => exact slugBase_chars title
      | succ m =>
        rw [slugCandidate_pos _ (by omega)]
        exact append_natStr_chars _ _ (slugBase_chars title)
    · rw [heq]
      exact append_natStr_chars _ _ (slugBase_chars title)

theorem generate_length (title : String) (taken : String → Bool) (ts : Nat) :
    (generate_unique_slug title taken ts).length ≤ 201 + max 3 (natStr ts).length := by
  have hmax3 : 3 ≤ max 3 (natStr ts).length := Nat.le_max_left _ _
  by_cases ht : title = ""
  · rw [generate_unique_slug, if_pos ht]
    have : ("article" : String).length = 7 := rfl
    omega
  · rcases generate_shape title taken ts ht with ⟨k, hk, heq⟩ | heq
    · rw [heq]
      cases k with
      | zero =>
        have := slugBase_length title
        have hb : slugCandidate (slugBase title) 0 = slugBase title := rfl
        rw [hb]
        omega
      | succ m =>
        rw [slugCandidate_pos _ (by omega)]
        rw [String.length_append, String.length_append]
        have h1 := slugBase_length title
        have h2 : (natStr (m + 1)).length ≤ 3 :=
          natStr_length_le (by omega) (by omega)
        have hdl : ("-" : String).length = 1 := rfl
        omega
    · rw [heq]
      rw [String.length_append, String.length_append]
      have h1 := slugBase_length title
      have h2 : (natStr ts).length ≤ max 3 (natStr ts).length := Nat.le_max_right _ _
      have hdl : ("-" : String).length = 1 := rfl
      omega

theorem generate_ne_empty (title : String) (taken : String → Bool) (ts : Nat) :
    generate_unique_slug title taken ts ≠ "" := by
  by_cases ht : title = ""
  · rw [generate_unique_slug, if_pos ht]
    decide
  · rcases generate_shape title taken ts ht with ⟨k, _, heq⟩ | heq
    · rw [heq]
      cases k with
      | zero => exact slugBase_ne_empty title
      | succ m =>
        apply ne_empty_of_length_pos
        rw [slugCandidate_pos _ (by omega), String.length_append, String.length_append]
        have := natStr_length_pos (m + 1)
        omega
    · rw [heq]
      apply ne_empty_of_length_pos
      rw [String.length_append, String.length_append]
      have := natStr_length_pos ts
      omega

/-- Freeness transported to a concrete store: the produced slug differs
from every stored slug whose row is not the article being saved. -/
theorem generate_distinct (title : String) (store : List (Nat × String))
    (selfPk : Option Nat) (ts : Nat) (ht : title ≠ "")
    (hfree : ∃ k, k ≤ 999 ∧
      takenFor store selfPk (slugCandidate (slugBase title) k) = false) :
    ∀ e ∈ store, some e.1 ≠ selfPk →
      e.2 ≠ generate_unique_slug title (takenFor store selfPk) ts := by
  have hf := generate_free title (takenFor store selfPk) ts ht hfree
  intro e he hpk heq
  rw [takenFor, List.any_eq_false] at hf
  have := hf e he
  rw [Bool.and_eq_true] at this
  apply this
  constructor
  · exact beq_iff_eq.mpr heq
  · simpa using hpk

/-- The loop returns the first free candidate: if `m` is free and every
candidate before it is taken, the result is exactly candidate `m`. -/
theorem generate_least (title : String) (taken : String → Bool) (ts : Nat)
    (ht : title ≠ "") (m : Nat) (hm : m ≤ 999)
    (hfree : taken (slugCandidate (slugBase title) m) = false)
    (hblocked : ∀ j < m, taken (slugCandidate (slugBase title) j) = true) :
    generate_unique_slug title taken ts = slugCandidate (slugBase title) m := by
  rw [generate_unique_slug, if_neg ht]
  exact slugLoop_least taken (slugBase title) ts 1000 1 m (by omega) (by omega)
    (by omega) hm hfree (fun j _ hj => hblocked j hj)

theorem createRun_eq (title : String) (ts : Nat) (store0 : List String)
    (ht : title ≠ "")
    (h0 : ∀ k, k ≤ 999 → slugCandidate (slugBase title) k ∉ store0) :
    ∀ n i, i + n ≤ 1000 →
      createRun title ts n
        ((List.range i).reverse.map (slugCandidate (slugBase title)) ++ store0) =
      (List.range n).map (fun j => slugCandidate (slugBase title) (i + j)) := by
  intro n
  induction n with
  | zero => intro i _; rw [createRun]; simp
  | succ m ih =>
    intro i hle
    have hi : i ≤ 999 := by omega
    have hgen : generate_unique_slug title
        (fun x => (((List.range i).reverse.map (slugCandidate (slugBase title)) ++
          store0).contains x)) ts = slugCandidate (slugBase title) i := by
      apply generate_least title _ ts ht i hi
      · have hnm : slugCandidate (slugBase title) i ∉
            (List.range i).reverse.map (slugCandidate (slugBase title)) ++ store0 := by
          intro hmem
          rcases List.mem_append.mp hmem with hml | hmr
          · rw [List.mem_map] at hml
            obtain ⟨j, hj, hje⟩ := hml
            rw [List.mem_reverse, List.mem_range] at hj
            have := slugCandidate_injective (slugBase title) hje
            omega
          · exact h0 i hi hmr
        rw [List.contains_eq_any_beq, List.any_eq_false]
        intro x hx hbeq
        rw [beq_iff_eq] at hbeq
        exact hnm (hbeq ▸ hx)
      · intro j hj
        apply List.elem_eq_true_of_mem
        apply List.mem_append_left
        rw [List.mem_map]
        exact ⟨j, by rw [List.mem_reverse, List.mem_range]; omega, rfl⟩
    rw [createRun]
    simp only [hgen]
    have hstep : slugCandidate (slugBase title) i ::
        ((List.range i).reverse.map (slugCandidate (slugBase title)) ++ store0) =
        (List.range (i + 1)).reverse.map (slugCandidate (slugBase title)) ++ store0 := by
      rw [List.range_succ, List.reverse_append]
      simp
    rw [hstep, ih (i + 1) (by omega)]
    rw [List.range_succ_eq_map, List.map_cons, List.map_map]
    refine congrArg₂ List.cons (congrArg _ (by omega)) ?_
    apply List.map_congr_left
    intro j _
    simp only [Function.comp]
    exact congrArg _ (by omega)

/-! ## Sweep lemmas -/

theorem sweepF_due {now : Int} {a : Article} (h : isDue now a = true) :
    sweepF now a = { a with status := Status.published, updated_at := now } := by
  rw [sweepF, if_pos h]

theorem sweepF_notdue {now : Int} {a : Article} (h : isDue now a = false) :
    sweepF now a = a := by
  rw [sweepF]
  simp [h]

theorem isDue_published {now : Int} {a : Article}
    (h : a.status = Status.published) : isDue now a = false := by
  simp [isDue, h]

theorem isDue_draft {now : Int} {a : Article} (h : isDue now a = true) :
    a.status = Status.draft ∧ ∃ d, a.publish_date = some d ∧ d ≤ now := by
  rw [isDue, Bool.and_eq_true] at h
  obtain ⟨h1, h2⟩ := h
  constructor
  · exact beq_iff_eq.mp h1
  · cases hpd : a.publish_date with
    | none => rw [hpd] at h2; simp at h2
    | some d =>
      rw [hpd] at h2
      simp only [decide_eq_true_eq] at h2
      exact ⟨d, rfl, h2⟩

theorem isDue_sweepF (now : Int) (a : Article) : isDue now (sweepF now a) = false := by
  by_cases h : isDue now a = true
  · rw [sweepF_due h]
    exact isDue_published rfl
  · have h' : isDue now a = false := by simpa using h
    rw [sweepF_notdue h']
    exact h'

theorem sweepF_idem (now : Int) (a : Article) :
    sweepF now (sweepF now a) = sweepF now a :=
  sweepF_notdue (isDue_sweepF now a)

/-! ## Validation lemmas -/

theorem withSlug_of_ne (a : Article) (taken : String → Bool) (ts : Nat)
    (h : a.slug ≠ "") : withSlug a taken ts = a := by
  rw [withSlug, if_neg h]

theorem clean_published_ok (a : Article) (now : Int)
    (hs : a.status = Status.published)
    (hti : titleIsPlaceholder a.title = false) : clean a now = Except.ok () := by
  rw [clean, if_neg (by simp [hti])]
  cases hpd : a.publish_date with
  | none => rfl
  | some d => simp [hs]

theorem clean_due_draft_rejects (a : Article) (now d : Int)
    (hs : a.status = Status.draft) (hpd : a.publish_date = some d)
    (hle : d ≤ now) : clean a now ≠ Except.ok () := by
  rw [clean]
  by_cases hti : titleIsPlaceholder a.title = true
  · rw [if_pos hti]
    simp
  · rw [if_neg hti, hpd]
    simp [hs, hle]

/-! ## Claim theorems -/

/-- C1 counterexample: saving an article with an empty title while some
other article (pk 1) already holds the slug `article` produces that very
slug again — the empty-title early return of `generate_unique_slug`
skips the uniqueness probe entirely, so the produced slug is not
distinct from every other article's slug. -/
theorem empty_title_slug_collision :
    generate_unique_slug "" (takenFor [(1, "article")] none) 0 = "article" ∧
    takenFor [(1, "article")] none "article" = true := ⟨rfl, rfl⟩

/-- C1 (amended): for every save whose title is non-empty, whenever some
candidate among `base`, `base-1`, …, `base-999` is free of collisions,
the slug produced by `generate_unique_slug` is distinct from the slug of
every existing article other than the article being saved; when the
title is empty the function instead returns the literal `article`
without any uniqueness probe (so no distinctness is guaranteed). -/
theorem generate_unique_slug_distinct (title : String)
    (store : List (Nat × String)) (selfPk : Option Nat) (ts : Nat)
    (ht : title ≠ "")
    (hfree : ∃ k, k ≤ 999 ∧
      takenFor store selfPk (slugCandidate (slugBase title) k) = false) :
    (∀ e ∈ store, some e.1 ≠ selfPk →
      e.2 ≠ generate_unique_slug title (takenFor store selfPk) ts) ∧
    generate_unique_slug "" (takenFor store selfPk) ts = "article" :=
  ⟨generate_distinct title store selfPk ts ht hfree, rfl⟩

/-- C1 witness: a concrete save against a store holding one other row. -/
theorem generate_unique_slug_distinct_witness :
    "hello" ≠ generate_unique_slug "world" (takenFor [(1, "hello")] none) 5 :=
  (generate_unique_slug_distinct "world" [(1, "hello")] none 5 (by decide)
    ⟨0, by omega, by rfl⟩).1 (1, "hello") (by simp) (by simp)

/-- C2: after `sweep(now)` every draft with a set `publish_date ≤ now`
is published, every draft with no date or a future date stays a draft,
and a second run with the same clock is the identity and finds zero
articles due. -/
theorem sweep_publishes_due_drafts (now : Int) (store : List Article) :
    (∀ a ∈ store, a.status = Status.draft → ∀ d : Int, a.publish_date = some d →
      d ≤ now → (sweepF now a).status = Status.published) ∧
    (∀ a ∈ store, a.status = Status.draft →
      (a.publish_date = none ∨ ∃ d : Int, a.publish_date = some d ∧ now < d) →
      (sweepF now a).status = Status.draft) ∧
    publish_scheduled_articles now (publish_scheduled_articles now store) =
      publish_scheduled_articles now store ∧
    (publish_scheduled_articles now store).filter (isDue now) = [] := by
  refine ⟨?_, ?_, ?_, ?_⟩
  · intro a _ hs d hpd hle
    have hdue : isDue now a = true := by simp [isDue, hs, hpd, hle]
    rw [sweepF_due hdue]
  · intro a _ hs hcase
    have hdue : isDue now a = false := by
      rcases hcase with h | ⟨d, hpd, hlt⟩
      · simp [isDue, h]
      · simp [isDue, hpd]
        omega
    rw [sweepF_notdue hdue]
    exact hs
  · simp only [publish_scheduled_articles, List.map_map]
    apply List.map_congr_left
    intro a _
    simp only [Function.comp_apply]
    exact sweepF_idem now a
  · rw [List.filter_eq_nil_iff]
    intro a ha
    rw [publish_scheduled_articles, List.mem_map] at ha
    obtain ⟨b, _, rfl⟩ := ha
    simp [isDue_sweepF]

/-- C2 witness: the three sweep behaviours at concrete articles. -/
theorem sweep_publishes_due_drafts_witness :
    (sweepF 10 exDueDraft).status = Status.published ∧
    (sweepF 10 exFutureDraft).status = Status.draft ∧
    (sweepF 10 exNoDateDraft).status = Status.draft :=
  ⟨(sweep_publishes_due_drafts 10 [exDueDraft]).1 exDueDraft (by simp) rfl 5 rfl
      (by omega),
   (sweep_publishes_due_drafts 10 [exFutureDraft]).2.1 exFutureDraft (by simp) rfl
      (Or.inr ⟨99, rfl, by omega⟩),
   (sweep_publishes_due_drafts 10 [exNoDateDraft]).2.1 exNoDateDraft (by simp) rfl
      (Or.inl rfl)⟩

/-- C9 counterexample: the sweep's save refreshes `updated_at`
(`auto_now=True`), so a transitioned article does not keep every other
field unchanged — `updated_at` moves from 0 to the sweep time 10. -/
theorem sweep_changes_updated_at :
    (sweepF 10 exDueDraft).updated_at = 10 ∧ exDueDraft.updated_at = 0 := by
  decide

/-- C9 (amended): the sweep changes only `status` (draft to published,
never the reverse) and `updated_at` (refreshed by the save); `title`,
`content`, `slug`, `author`, `publish_date`, `created_at` and `id` are
unchanged. -/
theorem sweep_frame (now : Int) (a : Article) :
    (sweepF now a).id = a.id ∧
    (sweepF now a).title = a.title ∧
    (sweepF now a).content = a.content ∧
    (sweepF now a).slug = a.slug ∧
    (sweepF now a).author = a.author ∧
    (sweepF now a).publish_date = a.publish_date ∧
    (sweepF now a).created_at = a.created_at ∧
    ((sweepF now a).status = a.status ∧ (sweepF now a).updated_at = a.updated_at ∨
      (a.status = Status.draft ∧ (sweepF now a).status = Status.published ∧
        (sweepF now a).updated_at = now)) ∧
    ¬(a.status = Status.published ∧ (sweepF now a).status = Status.draft) := by
  by_cases h : isDue now a = true
  · rw [sweepF_due h]
    have hd := isDue_draft h
    refine ⟨rfl, rfl, rfl, rfl, rfl, rfl, rfl, Or.inr ⟨hd.1, rfl, rfl⟩, ?_⟩
    rintro ⟨hp, _⟩
    have h1 := hd.1
    rw [hp] at h1
    exact Status.noConfusion h1
  · have h' : isDue now a = false := by simpa using h
    rw [sweepF_notdue h']
    refine ⟨rfl, rfl, rfl, rfl, rfl, rfl, rfl, Or.inl ⟨rfl, rfl⟩, ?_⟩
    rintro ⟨hp, hq⟩
    rw [hp] at hq
    exact Status.noConfusion hq

/-- C9 witness: the frame conditions at a concrete sweep. -/
theorem sweep_frame_witness :
    (sweepF 10 exDueDraft).slug = exDueDraft.slug ∧
    ¬(exDueDraft.status = Status.published ∧
      (sweepF 10 exDueDraft).status = Status.draft) :=
  ⟨(sweep_frame 10 exDueDraft).2.2.2.1,
   (sweep_frame 10 exDueDraft).2.2.2.2.2.2.2.2⟩

/-- C3 counterexample: a full write that sets `status = published` and
carries the past timestamp 50 in its payload (now = 100) is rejected by
the serializer's `validate_publish_date`, which never looks at the
status — refuting "for every write with status published, no
publish_date value causes a validation failure". -/
theorem published_write_past_date_rejected :
    updateArticle exPub
      (UpdatePayload.mk none none (some Status.published) (some (some 50)))
      (fun _ => false) 0 100 = Except.error "serializer" ∧
    exPub.status = Status.published := ⟨rfl, rfl⟩

/-- C3 (amended): model validation (`Article.clean`) rejects a draft
whose set `publish_date` is `≤ now` and never rejects a published
article over its `publish_date`; but the serializer field validator
rejects any payload-supplied `publish_date ≤ now` regardless of status,
so only a write that omits `publish_date` from its payload (e.g. a
PATCH-style update setting just `status = published`) is accepted regardless
of the stored `publish_date`. -/
theorem publish_date_validation_layers :
    (∀ (a : Article) (now d : Int), a.status = Status.draft →
      a.publish_date = some d → d ≤ now → clean a now ≠ Except.ok ()) ∧
    (∀ (a : Article) (now : Int), a.status = Status.published →
      titleIsPlaceholder a.title = false → clean a now = Except.ok ()) ∧
    (∀ v now : Int, v ≤ now → validate_publish_date (some v) now = false) ∧
    (∀ (a : Article) (taken : String → Bool) (ts : Nat) (now : Int),
      titleIsPlaceholder a.title = false → a.slug ≠ "" →
      updateArticle a (UpdatePayload.mk none none (some Status.published) none)
        taken ts now =
      Except.ok { a with status := Status.published, updated_at := now }) := by
  refine ⟨?_, ?_, ?_, ?_⟩
  · intro a now d hs hpd hle
    exact clean_due_draft_rejects a now d hs hpd hle
  · intro a now hs hti
    exact clean_published_ok a now hs hti
  · intro v now hle
    simp [validate_publish_date, hle]
  · intro a taken ts now hti hslug
    rw [updateArticle,
      if_pos (show updateFieldsValid
        (UpdatePayload.mk none none (some Status.published) none) now = true from rfl)]
    have happ : applyUpdate a
        (UpdatePayload.mk none none (some Status.published) none) =
        { a with status := Status.published } := rfl
    rw [happ, save,
      withSlug_of_ne { a with status := Status.published } taken ts hslug]
    rw [clean_published_ok { a with status := Status.published } now rfl hti]

/-- C3 witness: concrete instances of all four amended conjuncts. -/
theorem publish_date_validation_layers_witness :
    clean exDueDraft 100 ≠ Except.ok () ∧
    validate_publish_date (some 50) 100 = false ∧
    updateArticle exPub
      (UpdatePayload.mk none none (some Status.published) none)
      (fun _ => false) 0 100 =
      Except.ok { exPub with status := Status.published, updated_at := 100 } :=
  ⟨publish_date_validation_layers.1 exDueDraft 100 5 rfl rfl (by omega),
   publish_date_validation_layers.2.2.1 50 100 (by omega),
   publish_date_validation_layers.2.2.2 exPub (fun _ => false) 0 100
     (by decide) (by decide)⟩

/-- C4 counterexample: with two due drafts and a persist that fails on
the first row, the scan terminates at the failure and the remaining due
draft keeps status draft — refuting "a failure on one row is skipped
rather than terminating the scan". -/
theorem sweep_scan_failure_aborts :
    sweepScan (fun x => x.id != 1) 10 [exDueDraft, exDueDraft2] =
      ([exDueDraft, exDueDraft2], false) ∧
    isDue 10 exDueDraft2 = true ∧
    exDueDraft2.status = Status.draft := by
  decide

/-- C4 (amended): `publish_scheduled_articles` has no per-row error
handling: when persisting one transitioned row fails, rows before it in
the scan keep their transitions, but the failing row and every row after
it are left untouched — the batch is aborted, not continued. -/
theorem sweep_scan_aborts (persistOk : Article → Bool) (now : Int)
    (pre post : List Article) (a : Article)
    (hpre : ∀ b ∈ pre, isDue now b = true →
      persistOk { b with status := Status.published, updated_at := now } = true)
    (ha : isDue now a = true)
    (hfail : persistOk { a with status := Status.published, updated_at := now }
      = false) :
    sweepScan persistOk now (pre ++ a :: post) =
      (pre.map (sweepF now) ++ a :: post, false) := by
  induction pre with
  | nil =>
    rw [List.nil_append, sweepScan, if_pos ha, if_neg (by simp [hfail])]
    simp
  | cons b pre ih =>
    rw [List.cons_append, sweepScan]
    by_cases hdue : isDue now b = true
    · rw [if_pos hdue, if_pos (hpre b (by simp) hdue)]
      rw [ih (fun x hx hdx => hpre x (by simp [hx]) hdx)]
      simp [sweepF_due hdue]
    · have hdue2 : isDue now b = false := by simpa using hdue
      rw [if_neg (by simp [hdue2])]
      rw [ih (fun x hx hdx => hpre x (by simp [hx]) hdx)]
      simp [sweepF_notdue hdue2]

/-- C4 witness: the amended abort shape at a concrete two-row batch. -/
theorem sweep_scan_aborts_witness :
    sweepScan (fun x => x.id != 1) 10 ([] ++ exDueDraft :: [exDueDraft2]) =
      (List.map (sweepF 10) [] ++ exDueDraft :: [exDueDraft2], false) :=
  sweep_scan_aborts (fun x => x.id != 1) 10 [] [exDueDraft2] exDueDraft
    (by simp) (by decide) (by decide)

/-- C5: the `IsPublishedOrAuthor` object decision — anonymous read is
allowed exactly on published articles; authenticated read exactly when
the article is published or owned by the caller; object write exactly
when the caller is the author; anonymous write never. -/
theorem published_or_author_permission (a : Article) (u : Nat) :
    (has_object_permission none true a = true ↔ a.status = Status.published) ∧
    (has_object_permission (some u) true a = true ↔
      (a.status = Status.published ∨ a.author = u)) ∧
    (has_object_permission (some u) false a = true ↔ a.author = u) ∧
    has_object_permission none false a = false := by
  refine ⟨?_, ?_, ?_, ?_⟩ <;>
    simp [has_object_permission, beq_iff_eq]

/-- C5 witness: the five access scenarios at concrete inputs. -/
theorem published_or_author_permission_witness :
    has_object_permission none true exPub = true ∧
    has_object_permission none true exDueDraft = false ∧
    has_object_permission (some 1) true exDueDraft = true ∧
    has_object_permission (some 2) false exDueDraft = false ∧
    has_object_permission (some 1) false exDueDraft = true :=
  ⟨(published_or_author_permission exPub 1).1.mpr rfl,
   by
    have h := (published_or_author_permission exDueDraft 1).1
    revert h
    decide,
   (published_or_author_permission exDueDraft 1).2.1.mpr (Or.inr rfl),
   by
    have h := (published_or_author_permission exDueDraft 2).2.2.1
    revert h
    decide,
   (published_or_author_permission exDueDraft 1).2.2.1.mpr rfl⟩

set_option maxRecDepth 100000 in
/-- C6 counterexample: a 200-character title containing an underscore,
colliding with an existing slug, produces a 202-character slug that
contains an underscore — refuting both the 200-character bound and the
letters/digits/hyphens-only character set. -/
theorem slug_format_counterexample :
    200 < (generate_unique_slug longTitle (fun s => s == longTitle) 7).length ∧
    '_' ∈ (generate_unique_slug longTitle (fun s => s == longTitle) 7).data ∧
    ('_' : Char).isLower = false ∧ ('_' : Char).isDigit = false ∧
    ('_' : Char) ≠ '-' := by
  decide

/-- C6 (amended): for every title and oracle the produced slug is
non-empty and consists only of lowercase letters, digits, hyphens and
underscores; the base is truncated to 200 characters, but a collision
suffix `-k` (k ≤ 999) or the timestamp fallback may extend the result,
bounded by `201 + max 3 |ts|` characters. -/
theorem slug_format (title : String) (taken : String → Bool) (ts : Nat) :
    generate_unique_slug title taken ts ≠ "" ∧
    (∀ c ∈ (generate_unique_slug title taken ts).data, isSlugChar c = true) ∧
    (generate_unique_slug title taken ts).length ≤ 201 + max 3 (natStr ts).length :=
  ⟨generate_ne_empty title taken ts, generate_chars title taken ts,
   generate_length title taken ts⟩

/-- C6 witness: the format facts at a concrete call. -/
theorem slug_format_witness :
    generate_unique_slug "Hi" (fun _ => false) 0 ≠ "" :=
  (slug_format "Hi" (fun _ => false) 0).1

/-- C7: the collision loop probes `base`, `base-1`, `base-2`, …
returning the first free candidate, and 1000 successive creations with
the same title against a store initially free of those candidates
receive exactly the candidates in order — pairwise distinct — before any
timestamp fallback. -/
theorem same_title_creations_distinct (title : String) (ts : Nat)
    (store0 : List String) (ht : title ≠ "")
    (h0 : ∀ k, k ≤ 999 → slugCandidate (slugBase title) k ∉ store0) :
    (∀ (taken : String → Bool) (m : Nat), m ≤ 999 →
      taken (slugCandidate (slugBase title) m) = false →
      (∀ j < m, taken (slugCandidate (slugBase title) j) = true) →
      generate_unique_slug title taken ts = slugCandidate (slugBase title) m) ∧
    createRun title ts 1000 store0 =
      (List.range 1000).map (slugCandidate (slugBase title)) ∧
    (createRun title ts 1000 store0).Nodup := by
  have hrun := createRun_eq title ts store0 ht h0 1000 0 (by omega)
  have hstore : (List.range 0).reverse.map (slugCandidate (slugBase title)) ++ store0
      = store0 := by simp
  rw [hstore] at hrun
  have heq : createRun title ts 1000 store0 =
      (List.range 1000).map (slugCandidate (slugBase title)) := by
    rw [hrun]
    apply List.map_congr_left
    intro j _
    simp
  refine ⟨?_, heq, ?_⟩
  · intro taken m hm hfree hblocked
    exact generate_least title taken ts ht m hm hfree hblocked
  · rw [heq]
    have hinj : Function.Injective (slugCandidate (slugBase title)) :=
      fun _ _ h => slugCandidate_injective (slugBase title) h
    exact (List.nodup_range 1000).map hinj

/-- C7 witness: 1000 same-title creations from an empty store are
pairwise distinct. -/
theorem same_title_creations_distinct_witness :
    (createRun "post" 0 1000 []).Nodup :=
  (same_title_creations_distinct "post" 0 [] (by decide) (by simp)).2.2

/-- C8: the collision loop of `generate_unique_slug` executes its body
at most 1000 times for every title and every oracle, and under the
adversarial oracle that reports every candidate taken it returns the
timestamp fallback `{base}-{ts}`. -/
theorem slug_generation_bounded :
    (∀ (title : String) (taken : String → Bool),
      generateSteps title taken ≤ 1000) ∧
    (∀ (title : String) (ts : Nat), title ≠ "" →
      generate_unique_slug title (fun _ => true) ts =
        slugBase title ++ "-" ++ natStr ts) := by
  constructor
  · intro title taken
    rw [generateSteps]
    by_cases ht : title = ""
    · rw [if_pos ht]
      omega
    · rw [if_neg ht]
      exact slugLoopSteps_le taken (slugBase title) 1000 (slugBase title) 1
  · intro title ts ht
    rw [generate_unique_slug, if_neg ht]
    exact slugLoop_allTaken (slugBase title) ts 1000 1 (slugBase title)
      (by omega) (by omega) (by omega)

/-- C8 witness: the bound and the adversarial fallback at a concrete
title. -/
theorem slug_generation_bounded_witness :
    generateSteps "post" (fun _ => true) ≤ 1000 ∧
    generate_unique_slug "post" (fun _ => true) 42 =
      slugBase "post" ++ "-" ++ natStr 42 :=
  ⟨slug_generation_bounded.1 "post" (fun _ => true),
   slug_generation_bounded.2 "post" 42 (by decide)⟩

/-- C10: an all-digit token is dispatched to the pk lookup — never the
slug lookup — in both detail views; so when no stored article has that
numeric id (with the required status/ownership), the lookup returns
nothing even if some article's slug equals the token. -/
theorem digit_token_lookup_by_id (store : List Article) (token : String)
    (hd : isDigitToken token = true)
    (hnoid : ∀ a ∈ store, ¬(a.id = parseNat token ∧ a.status = Status.published)) :
    lookupPublished store token =
      store.find? (fun a => a.id == parseNat token && a.status == Status.published) ∧
    lookupPublished store token = none ∧
    (∀ targetUser requestUser : Nat,
      (∀ a ∈ store, ¬(a.id = parseNat token ∧ a.author = targetUser)) →
      get_article store targetUser token requestUser = none) := by
  refine ⟨?_, ?_, ?_⟩
  · rw [lookupPublished, if_pos hd]
  · rw [lookupPublished, if_pos hd, List.find?_eq_none]
    intro a ha
    simp only [Bool.and_eq_true, beq_iff_eq, not_and]
    intro h1 h2
    exact hnoid a ha ⟨h1, h2⟩
  · intro tu ru hno
    have hrow : get_article_row store tu token = none := by
      rw [get_article_row, if_pos hd, List.find?_eq_none]
      intro a ha
      simp only [Bool.and_eq_true, beq_iff_eq, not_and]
      intro h1 h2
      exact hno a ha ⟨h1, h2⟩
    rw [get_article, hrow]

/-- C10 witness: a published article whose slug is the all-digit token
`42` but whose id is 7 is not retrievable via that token. -/
theorem digit_token_lookup_by_id_witness :
    lookupPublished [exDigitSlug] "42" = none ∧
    get_article [exDigitSlug] 1 "42" 1 = none :=
  ⟨(digit_token_lookup_by_id [exDigitSlug] "42" (by decide) (by decide)).2.1,
   (digit_token_lookup_by_id [exDigitSlug] "42" (by decide) (by decide)).2.2 1 1
     (by decide)⟩

end Inkwell
